import Mathlib

/-!
Shallow embedding of the `cmp_by_derive` code generator (src/sort_by.rs,
src/lib.rs).  The generator turns a derive input — type-level `sort_by`
attribute lists plus per-field `sort_by` markers — into implementations of
hashing, equality, partial ordering and total ordering.

Syntax-level values produced by the `syn` crate (parsed attributes, parsed
string literals, the fallback expression parse of the raw attribute tokens)
are modelled by carrying the parse results in the input structures; selector
expressions are modelled by their source text.
-/

namespace SortByDerive

/-- A selector expression (a dotted member path or a method call), modelled
by its source text.  Selectors are pure syntax at this stage. -/
abbrev Sel := String

/-- One item of a parsed `Meta::List` (syn `NestedMeta`): a path with its
segments, a string literal carrying the result of re-parsing its contents as
an expression (`none` when that re-parse fails), or any other item shape
(non-path meta, non-string literal). -/
inductive NestedItem where
  | metaPath (segs : List String)
  | litStr (reparsed : Option Sel)
  | otherItem
deriving DecidableEq

/-- One element of the legacy tuple fallback form: a string literal carrying
its re-parse result, or any other already-parsed expression. -/
inductive TupleElem where
  | litStr (reparsed : Option Sel)
  | expr (e : Sel)
deriving DecidableEq

/-- Result of `syn::parse2::<Expr>(attr.tokens)`, the legacy fallback parse
of the raw attribute tokens: a tuple of elements, a parenthesized single
expression, some other expression shape, or a parse failure. -/
inductive RawTokens where
  | tuple (elems : List TupleElem)
  | paren (e : Sel)
  | otherExpr
  | noParse
deriving DecidableEq

/-- An attribute attached to the type: its path name, its source span
(modelled as a number), the result of `attr.parse_meta()` when it yields a
`Meta::List` (`none` otherwise), and the fallback token parse. -/
structure Attr where
  name : String
  span : Nat
  meta : Option (List NestedItem)
  tokens : RawTokens
deriving DecidableEq

/-- A named struct field: its identifier, its source span, and the number of
`sort_by` attributes attached to it. -/
structure Field where
  name : String
  span : Nat
  markers : Nat
deriving DecidableEq

/-- The field list of a struct (syn `Fields`): named fields, positional
(tuple) fields — modelled by the marker counts of each positional field —
or no fields at all. -/
inductive Fields where
  | named (fs : List Field)
  | unnamed (cs : List Nat)
  | unit
deriving DecidableEq

/-- The data of a derive input (syn `Data`): a struct, an enum (carrying the
fields of each variant, with their markers), or a union. -/
inductive Data where
  | struct (fields : Fields)
  | enum (variants : List (List Field))
  | union
deriving DecidableEq

/-- A derive input: its span, its attributes, and its data. -/
structure DeriveInput where
  span : Nat
  attrs : List Attr
  data : Data
deriving DecidableEq

/-- Outcome of `parse_outer`: a selector list, `Err(())` (the caller then
emits the help diagnostic), or a panic from a failed `unwrap`. -/
inductive POut where
  | ok (sels : List Sel)
  | err
  | panicked
deriving DecidableEq

/-- Outcome of the whole generator: generated code, a compile-error
diagnostic (`Error::new(span, msg).into_compile_error()`), or a panic. -/
inductive Res (α : Type) where
  | ok (a : α)
  | compileError (span : Nat) (msg : String)
  | panicked
deriving DecidableEq

/-- Decides whether a generator outcome is a compile-error diagnostic. -/
def Res.isCompileError {α : Type} : Res α → Bool
  | Res.compileError _ _ => true
  | _ => false

/-- The comparison chain emitted for the `Ord` impl: the head comparison
`core::cmp::Ord::cmp(&self.s, &other.s)` extended by
`.then_with(|| self.s.cmp(&other.s))` steps. -/
inductive CmpExpr where
  | cmpSel (s : Sel)
  | thenWith (e : CmpExpr) (s : Sel)
deriving DecidableEq

/-- The generated impl block: the hash statements (one `self.s.hash(state)`
per selector, in order) and the `Ord::cmp` body.  The emitted `PartialEq`
and `PartialOrd` bodies are fixed: `self.cmp(other).is_eq()` and
`Some(self.cmp(other))`; their semantics are `genEq` and `genPartialCmp`. -/
structure Generated where
  hashBody : List Sel
  ordBody : CmpExpr
deriving DecidableEq

/-- The help message for an invalid `sort_by` attribute (src/sort_by.rs line 9). -/
def HELP_SORTBY : String :=
  "SortBy: invalid sort_by attribute, expected list form i.e #[sort_by(attr1, attr2, methodcall())]"

/-- The shape-error message (src/sort_by.rs lines 40-44). -/
def shapeMsg : String := "SortBy: expected an enum or a struct with named fields"

/-- The empty-selection error message (src/sort_by.rs lines 54-58). -/
def noFieldMsg : String := "SortBy: no field to sort on. Mark fields to sort on with #[sort_by]"

/-- The duplicate-marker error message (src/sort_by.rs lines 119-122). -/
def dupMsg : String := "SortBy: expected at most one `sort_by` attribute"

/-- The loop over `list.nested` in `parse_outer` (src/sort_by.rs lines
132-146): a single-segment path is pushed as a selector, a string literal is
pushed as the re-parse of its contents (`unwrap` panics when that fails; a
path with no single identifier also panics, since `get_ident()` yields
`None` and parsing the empty token stream as an expression fails), and any
other item invalidates the list, falling back to the token parse. -/
def parseList : List NestedItem → POut
  | [] => POut.ok []
  | NestedItem.metaPath [s] :: rest =>
    match parseList rest with
    | POut.ok sels => POut.ok (s :: sels)
    | r => r
  | NestedItem.metaPath _ :: _ => POut.panicked
  | NestedItem.litStr (some e) :: rest =>
    match parseList rest with
    | POut.ok sels => POut.ok (e :: sels)
    | r => r
  | NestedItem.litStr none :: _ => POut.panicked
  | NestedItem.otherItem :: _ => POut.err

/-- The legacy fallback of `parse_outer` (src/sort_by.rs lines 152-164):
the raw attribute tokens parsed as an expression.  A tuple yields its
elements — string literals re-parsed (`unwrap` panics on failure), other
elements passed through; a parenthesized expression yields its single inner
expression; anything else is `Err(())`. -/
def fallback : RawTokens → POut
  | RawTokens.tuple elems => fallbackElems elems
  | RawTokens.paren e => POut.ok [e]
  | RawTokens.otherExpr => POut.err
  | RawTokens.noParse => POut.err
where
  fallbackElems : List TupleElem → POut
  | [] => POut.ok []
  | TupleElem.litStr (some e) :: rest =>
    match fallbackElems rest with
    | POut.ok sels => POut.ok (e :: sels)
    | r => r
  | TupleElem.litStr none :: _ => POut.panicked
  | TupleElem.expr e :: rest =>
    match fallbackElems rest with
    | POut.ok sels => POut.ok (e :: sels)
    | r => r

/-- `parse_outer` (src/sort_by.rs lines 128-167): try the `Meta::List` form
first; when it does not parse or an item invalidates it, fall back to
parsing the raw tokens as a tuple or parenthesized expression. -/
def parse_outer (attr : Attr) : POut :=
  match attr.meta with
  | some items =>
    match parseList items with
    | POut.ok sels => POut.ok sels
    | POut.panicked => POut.panicked
    | POut.err => fallback attr.tokens
  | none => fallback attr.tokens

/-- `parse_fields` (src/sort_by.rs lines 101-126): collect, in declaration
order, the name of every field carrying exactly one `sort_by` marker; a
field with two or more markers is a hard error at that field's span. -/
def parse_fields : List Field → Except (Nat × String) (List Sel)
  | [] => Except.ok []
  | f :: rest =>
    if f.markers = 0 then parse_fields rest
    else if 2 ≤ f.markers then Except.error (f.span, dupMsg)
    else (parse_fields rest).map (fun sels => f.name :: sels)

/-- The `sort_by`-named attributes of the input (the filter at
src/sort_by.rs lines 17-20). -/
def sortByAttrs (i : DeriveInput) : List Attr :=
  i.attrs.filter (fun a => a.name == "sort_by")

/-- The attribute loop of `impl_sort_by_derive` (src/sort_by.rs lines
17-28): parse each `sort_by` attribute, concatenating the selector lists in
attachment order; the first failing attribute aborts with the help
diagnostic at that attribute's span. -/
def collectOuter : List Attr → Res (List Sel)
  | [] => Res.ok []
  | attr :: rest =>
    match parse_outer attr with
    | POut.ok sels =>
      match collectOuter rest with
      | Res.ok more => Res.ok (sels ++ more)
      | r => r
    | POut.err => Res.compileError attr.span HELP_SORTBY
    | POut.panicked => Res.panicked

/-- The data match of `impl_sort_by_derive` (src/sort_by.rs lines 30-46): a
struct with named fields is scanned by `parse_fields`, an enum contributes
nothing (its variant fields are never inspected), and any other shape is a
compile error at the input's span. -/
def scanData (inputSpan : Nat) : Data → Res (List Sel)
  | Data.struct (Fields.named fs) =>
    match parse_fields fs with
    | Except.ok sels => Res.ok sels
    | Except.error (sp, msg) => Res.compileError sp msg
  | Data.enum _ => Res.ok []
  | _ => Res.compileError inputSpan shapeMsg

/-- The resolved selector sequence of an input: the concatenated type-level
lists followed by the marked-field selectors (the shared
`sortable_expressions` vector of src/sort_by.rs lines 15-46). -/
def resolveInput (i : DeriveInput) : Res (List Sel) :=
  match collectOuter (sortByAttrs i) with
  | Res.ok outer =>
    match scanData i.span i.data with
    | Res.ok fieldSels => Res.ok (outer ++ fieldSels)
    | r => r
  | r => r

/-- `impl_sort_by_derive` (src/sort_by.rs lines 11-99): resolve the selector
sequence; an empty sequence is the no-field compile error; otherwise emit
the hash statements (one per selector) and the comparison chain (head
comparison folded with `then_with` steps, lines 48-65). -/
def impl_sort_by_derive (i : DeriveInput) : Res Generated :=
  match resolveInput i with
  | Res.ok [] => Res.compileError i.span noFieldMsg
  | Res.ok (s :: rest) =>
    Res.ok { hashBody := s :: rest
             ordBody := rest.foldl CmpExpr.thenWith (CmpExpr.cmpSel s) }
  | Res.compileError sp m => Res.compileError sp m
  | Res.panicked => Res.panicked

/-- Semantics of the emitted comparison chain, for instances of type `α`
under a selector valuation `v` into a linearly ordered value type `β`:
`cmpSel s` is `core::cmp::Ord::cmp(&self.s, &other.s)` and `thenWith`
is `Ordering::then_with` (the right operand evaluated only on `eq`,
which in this pure setting is `Ordering.then`). -/
def evalCmpExpr {α β : Type} [LinearOrder β] (v : Sel → α → β) (a b : α) : CmpExpr → Ordering
  | CmpExpr.cmpSel s => compare (v s a) (v s b)
  | CmpExpr.thenWith e s => Ordering.then (evalCmpExpr v a b e) (compare (v s a) (v s b))

/-- Semantics of the emitted `Ord::cmp` (src/sort_by.rs lines 93-97). -/
def genCmp {α β : Type} [LinearOrder β] (v : Sel → α → β) (a b : α) (g : Generated) : Ordering :=
  evalCmpExpr v a b g.ordBody

/-- Semantics of the emitted `PartialEq::eq`, literally
`self.cmp(other).is_eq()` (src/sort_by.rs lines 81-85). -/
def genEq {α β : Type} [LinearOrder β] (v : Sel → α → β) (a b : α) (g : Generated) : Bool :=
  (genCmp v a b g).isEq

/-- Semantics of the emitted `PartialOrd::partial_cmp`, literally
`Some(self.cmp(other))` (src/sort_by.rs lines 87-91). -/
def genPartialCmp {α β : Type} [LinearOrder β] (v : Sel → α → β) (a b : α) (g : Generated) :
    Option Ordering :=
  some (genCmp v a b g)

/-- Semantics of the emitted `Hash::hash` body (src/sort_by.rs lines 73-77):
one hash-state update per statement, in order; `combine` is the hasher's
state transition and `vv s` the hashed value of `self.s`. -/
def runHash {σ : Type} (combine : σ → Int → σ) (vv : Sel → Int) : List Sel → σ → σ
  | [], st => st
  | s :: rest, st => runHash combine vv rest (combine st (vv s))

/-- Lexicographic comparison over a selector sequence: compare the first
selector's values; if unequal that result wins, otherwise continue; the
empty sequence compares equal.  This is the specification-side ordering the
generated chain is checked against. -/
def lexCompare {α β : Type} [LinearOrder β] (v : Sel → α → β) (a b : α) : List Sel → Ordering
  | [] => Ordering.eq
  | s :: rest => Ordering.then (compare (v s a) (v s b)) (lexCompare v a b rest)

theorem ordering_then_assoc (a b c : Ordering) :
    Ordering.then (Ordering.then a b) c = Ordering.then a (Ordering.then b c) := by
  cases a <;> rfl

theorem ordering_then_of_ne_eq {a : Ordering} (b : Ordering) (h : a ≠ Ordering.eq) :
    Ordering.then a b = a := by
  cases a with
  | eq => exact absurd rfl h
  | lt => rfl
  | gt => rfl

theorem evalCmpExpr_foldl {α β : Type} [LinearOrder β] (v : Sel → α → β) (a b : α)
    (rest : List Sel) (e : CmpExpr) :
    evalCmpExpr v a b (rest.foldl CmpExpr.thenWith e)
      = Ordering.then (evalCmpExpr v a b e) (lexCompare v a b rest) := by
  induction rest generalizing e with
  | nil =>
    simp only [List.foldl_nil, lexCompare]
    cases evalCmpExpr v a b e <;> rfl
  | cons s rest ih =>
    simp only [List.foldl_cons, lexCompare]
    rw [ih, evalCmpExpr, ordering_then_assoc]

theorem lexCompare_all_eq {α β : Type} [LinearOrder β] (v : Sel → α → β) (a b : α)
    (sels : List Sel) (h : ∀ s ∈ sels, compare (v s a) (v s b) = Ordering.eq) :
    lexCompare v a b sels = Ordering.eq := by
  induction sels with
  | nil => rfl
  | cons s rest ih =>
    simp only [lexCompare, h s (List.mem_cons_self s rest)]
    exact ih (fun t ht => h t (List.mem_cons_of_mem s ht))

theorem lexCompare_append_of_eq {α β : Type} [LinearOrder β] (v : Sel → α → β) (a b : α)
    (pre l : List Sel) (h : ∀ s ∈ pre, compare (v s a) (v s b) = Ordering.eq) :
    lexCompare v a b (pre ++ l) = lexCompare v a b l := by
  induction pre with
  | nil => rfl
  | cons s rest ih =>
    simp only [List.cons_append, lexCompare, h s (List.mem_cons_self s rest)]
    exact ih (fun t ht => h t (List.mem_cons_of_mem s ht))

/-- C1: for every input whose resolved selector sequence is nonempty (as it
is whenever generation succeeds), the generated `cmp` is lexicographic: it
equals the lexicographic comparison over the sequence; whenever the
selectors before a position all compare equal and that position compares
unequal, that position's result is the answer, independent of every later
selector; and when all selectors compare equal the result is `eq`. -/
theorem generated_cmp_lexicographic {α β : Type} [LinearOrder β]
    (i : DeriveInput) (g : Generated) (sels : List Sel) (v : Sel → α → β) (a b : α)
    (hres : resolveInput i = Res.ok sels)
    (himpl : impl_sort_by_derive i = Res.ok g) :
    genCmp v a b g = lexCompare v a b sels ∧
    (∀ pre s rest, sels = pre ++ s :: rest →
      (∀ t ∈ pre, compare (v t a) (v t b) = Ordering.eq) →
      compare (v s a) (v s b) ≠ Ordering.eq →
      genCmp v a b g = compare (v s a) (v s b)) ∧
    ((∀ s ∈ sels, compare (v s a) (v s b) = Ordering.eq) →
      genCmp v a b g = Ordering.eq) := by
  unfold impl_sort_by_derive at himpl
  rw [hres] at himpl
  cases sels with
  | nil => exact absurd himpl (by simp)
  | cons s0 rest0 =>
    simp only at himpl
    cases himpl
    have hg : genCmp v a b
        ⟨s0 :: rest0, rest0.foldl CmpExpr.thenWith (CmpExpr.cmpSel s0)⟩
        = lexCompare v a b (s0 :: rest0) := by
      simp only [genCmp, evalCmpExpr_foldl, evalCmpExpr, lexCompare]
    refine ⟨hg, ?_, ?_⟩
    · intro pre s rest heq hpre hne
      rw [hg, heq, lexCompare_append_of_eq v a b pre (s :: rest) hpre]
      simp only [lexCompare]
      exact ordering_then_of_ne_eq _ hne
    · intro hall
      rw [hg]
      exact lexCompare_all_eq v a b _ hall

/-- Concrete input for the C1 witness: fields `a` and `c` marked, `b` not. -/
def wInputC1 : DeriveInput :=
  ⟨0, [], Data.struct (Fields.named [⟨"a", 1, 1⟩, ⟨"b", 2, 0⟩, ⟨"c", 3, 1⟩])⟩

/-- The generated code for `wInputC1`. -/
def wGenC1 : Generated := ⟨["a", "c"], CmpExpr.thenWith (CmpExpr.cmpSel "a") "c"⟩

/-- Concrete selector valuation for the C1 witness. -/
def wValC1 : Sel → Nat → Int :=
  fun s n => if s = "a" then (if n = 0 then 0 else 1) else 5

theorem generated_cmp_lexicographic_witness :
    resolveInput wInputC1 = Res.ok ["a", "c"] ∧
    impl_sort_by_derive wInputC1 = Res.ok wGenC1 ∧
    genCmp wValC1 0 1 wGenC1 = lexCompare wValC1 0 1 ["a", "c"] :=
  ⟨rfl, rfl,
    (generated_cmp_lexicographic wInputC1 wGenC1 ["a", "c"] wValC1 0 1 rfl rfl).1⟩

/-- C4: an input whose resolved selector sequence is empty makes generation
fail with the no-field diagnostic at the input's span, and generation never
succeeds on an empty sequence: a successful generation always carries at
least one selector in both the comparison chain and the hash body. -/
theorem empty_selection_fails (i : DeriveInput) :
    (resolveInput i = Res.ok [] →
      impl_sort_by_derive i = Res.compileError i.span noFieldMsg) ∧
    (∀ g, impl_sort_by_derive i = Res.ok g →
      ∃ s rest, resolveInput i = Res.ok (s :: rest) ∧ g.hashBody = s :: rest ∧
        g.ordBody = rest.foldl CmpExpr.thenWith (CmpExpr.cmpSel s)) := by
  constructor
  · intro h
    unfold impl_sort_by_derive
    rw [h]
  · intro g h
    unfold impl_sort_by_derive at h
    cases hres : resolveInput i with
    | ok sels =>
      rw [hres] at h
      cases sels with
      | nil => simp at h
      | cons s rest =>
        simp only at h
        cases h
        exact ⟨s, rest, rfl, rfl, rfl⟩
    | compileError sp m =>
      rw [hres] at h
      simp at h
    | panicked =>
      rw [hres] at h
      simp at h

/-- Concrete input for the C4 witness: one field, not marked, no attributes. -/
def wInputC4 : DeriveInput := ⟨7, [], Data.struct (Fields.named [⟨"a", 1, 0⟩])⟩

theorem empty_selection_fails_witness :
    resolveInput wInputC4 = Res.ok [] ∧
    impl_sort_by_derive wInputC4 = Res.compileError 7 noFieldMsg :=
  ⟨rfl, (empty_selection_fails wInputC4).1 rfl⟩

theorem parse_fields_cons_zero (f : Field) (h : f.markers = 0) (rest : List Field) :
    parse_fields (f :: rest) = parse_fields rest := by
  simp [parse_fields, h]

theorem parse_fields_cons_one (f : Field) (h : f.markers = 1) (rest : List Field) :
    parse_fields (f :: rest) = (parse_fields rest).map (fun sels => f.name :: sels) := by
  simp [parse_fields, h]

theorem parse_fields_cons_dup (f : Field) (h : 2 ≤ f.markers) (rest : List Field) :
    parse_fields (f :: rest) = Except.error (f.span, dupMsg) := by
  have h0 : ¬ f.markers = 0 := by omega
  simp [parse_fields, h0, h]

/-- C5: with every earlier field carrying at most one marker, a field with
two or more `sort_by` markers makes the field scan fail hard at that field's
span, while a field with exactly one marker is included as the selector
equal to its name, after the marked earlier fields and before the later
ones. -/
theorem duplicate_marker_hard_error (pre post : List Field) (f : Field)
    (hpre : ∀ g ∈ pre, g.markers ≤ 1) :
    (2 ≤ f.markers → parse_fields (pre ++ f :: post) = Except.error (f.span, dupMsg)) ∧
    (f.markers = 1 → ∀ psels, parse_fields post = Except.ok psels →
      parse_fields (pre ++ f :: post)
        = Except.ok (((pre.filter (fun g => g.markers == 1)).map Field.name)
            ++ f.name :: psels)) := by
  induction pre with
  | nil =>
    constructor
    · intro h2
      simpa using parse_fields_cons_dup f h2 post
    · intro h1 psels hpost
      simp [parse_fields_cons_one f h1 post, hpost, Except.map]
  | cons g rest ih =>
    have hg : g.markers ≤ 1 := hpre g (List.mem_cons_self g rest)
    have hrest : ∀ t ∈ rest, t.markers ≤ 1 :=
      fun t ht => hpre t (List.mem_cons_of_mem g ht)
    obtain ⟨ih1, ih2⟩ := ih hrest
    rcases Nat.le_one_iff_eq_zero_or_eq_one.mp hg with hg0 | hg1
    · constructor
      · intro h2
        rw [List.cons_append, parse_fields_cons_zero g hg0, ih1 h2]
      · intro h1 psels hpost
        rw [List.cons_append, parse_fields_cons_zero g hg0, ih2 h1 psels hpost]
        have : (g.markers == 1) = false := by simp [hg0]
        simp [List.filter_cons, this]
    · constructor
      · intro h2
        rw [List.cons_append, parse_fields_cons_one g hg1, ih1 h2]
        rfl
      · intro h1 psels hpost
        rw [List.cons_append, parse_fields_cons_one g hg1, ih2 h1 psels hpost]
        have : (g.markers == 1) = true := by simp [hg1]
        simp [List.filter_cons, this, Except.map]

theorem duplicate_marker_hard_error_witness :
    parse_fields [⟨"a", 1, 1⟩, ⟨"d", 9, 2⟩, ⟨"c", 3, 1⟩] = Except.error (9, dupMsg) ∧
    parse_fields [⟨"a", 1, 1⟩, ⟨"e", 4, 1⟩, ⟨"c", 3, 1⟩] = Except.ok ["a", "e", "c"] :=
  ⟨(duplicate_marker_hard_error [⟨"a", 1, 1⟩] [⟨"c", 3, 1⟩] ⟨"d", 9, 2⟩
      (by decide)).1 (by decide),
   (duplicate_marker_hard_error [⟨"a", 1, 1⟩] [⟨"c", 3, 1⟩] ⟨"e", 4, 1⟩
      (by decide)).2 rfl ["c"] rfl⟩

/-- C6: for every generated impl block, the emitted equality holds exactly
when the emitted total ordering yields `eq`, and the emitted partial
ordering is always `some` of the total-ordering result — never `none`, so
two instances are never incomparable. -/
theorem generated_eq_partialord_consistent {α β : Type} [LinearOrder β]
    (i : DeriveInput) (g : Generated) (v : Sel → α → β) (a b : α)
    (_himpl : impl_sort_by_derive i = Res.ok g) :
    (genEq v a b g = true ↔ genCmp v a b g = Ordering.eq) ∧
    genPartialCmp v a b g = some (genCmp v a b g) ∧
    genPartialCmp v a b g ≠ none := by
  refine ⟨?_, rfl, by simp [genPartialCmp]⟩
  unfold genEq
  cases genCmp v a b g <;> decide

/-- Concrete input for the C6 witness: one marked field `k`. -/
def wInputC6 : DeriveInput := ⟨0, [], Data.struct (Fields.named [⟨"k", 1, 1⟩])⟩

/-- The generated code for `wInputC6`. -/
def wGenC6 : Generated := ⟨["k"], CmpExpr.cmpSel "k"⟩

/-- Concrete selector valuation for the C6 witness. -/
def wValC6 : Sel → Nat → Int := fun _ n => if n = 0 then 0 else 1

theorem generated_eq_partialord_consistent_witness :
    impl_sort_by_derive wInputC6 = Res.ok wGenC6 ∧
    ((genEq wValC6 0 0 wGenC6 = true ↔ genCmp wValC6 0 0 wGenC6 = Ordering.eq) ∧
      genPartialCmp wValC6 0 0 wGenC6 = some (genCmp wValC6 0 0 wGenC6) ∧
      genPartialCmp wValC6 0 0 wGenC6 ≠ none) :=
  ⟨rfl, generated_eq_partialord_consistent wInputC6 wGenC6 wValC6 0 0 rfl⟩

theorem runHash_eq_foldl {σ : Type} (combine : σ → Int → σ) (vv : Sel → Int)
    (sels : List Sel) (st : σ) :
    runHash combine vv sels st = List.foldl (fun acc s => combine acc (vv s)) st sels := by
  induction sels generalizing st with
  | nil => rfl
  | cons s rest ih =>
    simp only [runHash, List.foldl_cons]
    exact ih _

/-- C7: for every successful generation, the emitted hash body holds exactly
one update statement per resolved selector, in sequence order, and its
semantics threads the hash state through one `combine` per selector with no
short-circuiting: the update for a selector is applied unconditionally,
whatever the values are. -/
theorem generated_hash_one_update_per_selector (i : DeriveInput) (g : Generated)
    (sels : List Sel)
    (hres : resolveInput i = Res.ok sels)
    (himpl : impl_sort_by_derive i = Res.ok g) :
    g.hashBody = sels ∧
    (∀ (σ : Type) (combine : σ → Int → σ) (vv : Sel → Int) (st : σ),
      runHash combine vv g.hashBody st
        = List.foldl (fun acc s => combine acc (vv s)) st sels) ∧
    (∀ (σ : Type) (combine : σ → Int → σ) (vv : Sel → Int) (st : σ) (s : Sel)
      (rest : List Sel),
      runHash combine vv (s :: rest) st = runHash combine vv rest (combine st (vv s))) := by
  have hbody : g.hashBody = sels := by
    unfold impl_sort_by_derive at himpl
    rw [hres] at himpl
    cases sels with
    | nil => simp at himpl
    | cons s rest =>
      simp only at himpl
      cases himpl
      rfl
  refine ⟨hbody, ?_, ?_⟩
  · intro σ combine vv st
    rw [hbody]
    exact runHash_eq_foldl combine vv sels st
  · intro σ combine vv st s rest
    rfl

/-- Concrete input for the C7 witness: two marked fields. -/
def wInputC7 : DeriveInput :=
  ⟨0, [], Data.struct (Fields.named [⟨"a", 1, 1⟩, ⟨"b", 2, 1⟩])⟩

/-- The generated code for `wInputC7`. -/
def wGenC7 : Generated := ⟨["a", "b"], CmpExpr.thenWith (CmpExpr.cmpSel "a") "b"⟩

theorem generated_hash_one_update_per_selector_witness :
    resolveInput wInputC7 = Res.ok ["a", "b"] ∧
    impl_sort_by_derive wInputC7 = Res.ok wGenC7 ∧
    wGenC7.hashBody = ["a", "b"] :=
  ⟨rfl, rfl,
    (generated_hash_one_update_per_selector wInputC7 wGenC7 ["a", "b"] rfl rfl).1⟩

/-- C10: for an enum input, the variant fields — whatever markers they carry,
even duplicated ones — are never scanned: they raise no diagnostic and
contribute no selector, so the resolved sequence is exactly the concatenated
type-level selector lists. -/
theorem enum_ignores_variant_markers (sp : Nat) (attrs : List Attr)
    (vs : List (List Field)) (tl : List Sel)
    (h : collectOuter (attrs.filter (fun a => a.name == "sort_by")) = Res.ok tl) :
    scanData sp (Data.enum vs) = Res.ok [] ∧
    resolveInput ⟨sp, attrs, Data.enum vs⟩ = Res.ok tl := by
  refine ⟨rfl, ?_⟩
  unfold resolveInput sortByAttrs
  simp only
  rw [h]
  simp [scanData]

/-- Concrete attribute for the C10 witness: a type-level list with the
single path selector `speed`. -/
def wAttrC10 : Attr :=
  ⟨"sort_by", 4, some [NestedItem.metaPath ["speed"]], RawTokens.noParse⟩

theorem enum_ignores_variant_markers_witness :
    scanData 0 (Data.enum [[⟨"x", 1, 5⟩]]) = Res.ok [] ∧
    resolveInput ⟨0, [wAttrC10], Data.enum [[⟨"x", 1, 5⟩]]⟩ = Res.ok ["speed"] :=
  enum_ignores_variant_markers 0 [wAttrC10] [[⟨"x", 1, 5⟩]] ["speed"] rfl

/-- The reserved interleave marker token of the ordering generator. -/
def fieldsMarkerTok : String := "_fields"

/-- Modelled from the spec: the in-place marker substitution of the
Precedence Resolver (parsing.rs / cmp_by.rs, declared in src/lib.rs but
absent from src/) — every occurrence of the marker token is replaced by the
field-selector list, other items are kept in place.  The spec guarantees at
most one occurrence per list. -/
def replaceMarker (fieldSels : List Sel) : List Sel → List Sel
  | [] => []
  | s :: rest =>
    if s = fieldsMarkerTok then fieldSels ++ replaceMarker fieldSels rest
    else s :: replaceMarker fieldSels rest

/-- Modelled from the spec: the Precedence Resolver of the ordering
generator (parsing.rs / cmp_by.rs, declared in src/lib.rs but absent from
src/).  If the type-level list contains the marker token, the marker is
replaced in place by the field-scanner list; otherwise the field-scanner
list is appended after the type-level list. -/
def resolveWithMarker (typeLevel fieldSels : List Sel) : List Sel :=
  if fieldsMarkerTok ∈ typeLevel then replaceMarker fieldSels typeLevel
  else typeLevel ++ fieldSels

theorem replaceMarker_of_not_mem (fs : List Sel) (l : List Sel)
    (h : fieldsMarkerTok ∉ l) : replaceMarker fs l = l := by
  induction l with
  | nil => rfl
  | cons s rest ih =>
    have hs : s ≠ fieldsMarkerTok := fun he => h (he ▸ List.mem_cons_self s rest)
    have hr : fieldsMarkerTok ∉ rest := fun hm => h (List.mem_cons_of_mem s hm)
    simp [replaceMarker, hs, ih hr]

theorem collectOuter_forall2 (attrs : List Attr) (tls : List (List Sel))
    (h : List.Forall₂ (fun a l => parse_outer a = POut.ok l) attrs tls) :
    collectOuter attrs = Res.ok tls.flatten := by
  induction h with
  | nil => rfl
  | cons hpair hrest ih => simp [collectOuter, hpair, ih]

/-- C2: with several type-level attachments whose concatenated selector
lists avoid the interleave marker, the resolved sequence is the
concatenation in attachment order followed by the marked-field selectors —
both for the spec-modelled marker-aware resolver and for the generator's own
resolution — and with no type-level selectors at all it is exactly the field
list. -/
theorem resolved_order_type_level_then_fields (sp : Nat) (attrs : List Attr)
    (tls : List (List Sel)) (fields : List Field) (fsels : List Sel)
    (hall : List.Forall₂ (fun a l => parse_outer a = POut.ok l)
      (attrs.filter (fun a => a.name == "sort_by")) tls)
    (hnm : fieldsMarkerTok ∉ tls.flatten)
    (hf : parse_fields fields = Except.ok fsels) :
    resolveWithMarker tls.flatten fsels = tls.flatten ++ fsels ∧
    resolveInput ⟨sp, attrs, Data.struct (Fields.named fields)⟩
      = Res.ok (tls.flatten ++ fsels) ∧
    resolveWithMarker [] fsels = fsels := by
  refine ⟨?_, ?_, ?_⟩
  · unfold resolveWithMarker
    rw [if_neg hnm]
  · unfold resolveInput
    have hfil : sortByAttrs ⟨sp, attrs, Data.struct (Fields.named fields)⟩
        = attrs.filter (fun a => a.name == "sort_by") := rfl
    rw [hfil, collectOuter_forall2 _ _ hall]
    simp [scanData, hf]
  · simp [resolveWithMarker, fieldsMarkerTok]

/-- Concrete attachments for the C2 witness. -/
def wAttrC2a : Attr :=
  ⟨"sort_by", 1, some [NestedItem.metaPath ["x"], NestedItem.metaPath ["y"]], RawTokens.noParse⟩

/-- Second concrete attachment for the C2 witness. -/
def wAttrC2b : Attr :=
  ⟨"sort_by", 2, some [NestedItem.metaPath ["z"]], RawTokens.noParse⟩

theorem resolved_order_type_level_then_fields_witness :
    resolveWithMarker [["x", "y"], ["z"]].flatten ["f1"] = ["x", "y", "z", "f1"] ∧
    resolveInput ⟨0, [wAttrC2a, wAttrC2b], Data.struct (Fields.named [⟨"f1", 3, 1⟩])⟩
      = Res.ok ["x", "y", "z", "f1"] :=
  ⟨(resolved_order_type_level_then_fields 0 [wAttrC2a, wAttrC2b] [["x", "y"], ["z"]]
      [⟨"f1", 3, 1⟩] ["f1"]
      (List.Forall₂.cons rfl (List.Forall₂.cons rfl List.Forall₂.nil))
      (by decide) rfl).1,
   (resolved_order_type_level_then_fields 0 [wAttrC2a, wAttrC2b] [["x", "y"], ["z"]]
      [⟨"f1", 3, 1⟩] ["f1"]
      (List.Forall₂.cons rfl (List.Forall₂.cons rfl List.Forall₂.nil))
      (by decide) rfl).2.1⟩

theorem replaceMarker_append (fs before after : List Sel)
    (h1 : fieldsMarkerTok ∉ before) (h2 : fieldsMarkerTok ∉ after) :
    replaceMarker fs (before ++ fieldsMarkerTok :: after) = before ++ fs ++ after := by
  induction before with
  | nil =>
    simp [replaceMarker, replaceMarker_of_not_mem fs after h2]
  | cons s rest ih =>
    have hs : s ≠ fieldsMarkerTok := fun he => h1 (he ▸ List.mem_cons_self s rest)
    have hr : fieldsMarkerTok ∉ rest := fun hm => h1 (List.mem_cons_of_mem s hm)
    simp only [List.cons_append, replaceMarker, if_neg hs]
    show s :: replaceMarker fs (rest ++ fieldsMarkerTok :: after)
      = s :: (rest ++ fs ++ after)
    rw [ih hr]

/-- C3: a type-level list holding the interleave marker at some position
resolves to that list with the marker replaced, in place, by the whole
field-scanner list: items before the marker stay ahead of the field
selectors, items after stay behind them. -/
theorem resolve_marker_in_place (before after fs : List Sel)
    (h1 : fieldsMarkerTok ∉ before) (h2 : fieldsMarkerTok ∉ after) :
    resolveWithMarker (before ++ fieldsMarkerTok :: after) fs
      = before ++ fs ++ after := by
  have hmem : fieldsMarkerTok ∈ before ++ fieldsMarkerTok :: after := by simp
  unfold resolveWithMarker
  rw [if_pos hmem]
  exact replaceMarker_append fs before after h1 h2

theorem resolve_marker_in_place_witness :
    resolveWithMarker ["m1", "_fields", "m2"] ["a", "b"] = ["m1", "a", "b", "m2"] :=
  resolve_marker_in_place ["m1"] ["m2"] ["a", "b"] (by decide) (by decide)

/-- Modelled from the spec: the shape check of the live generators
(cmp_by.rs and hash_by.rs, declared in src/lib.rs but absent from src/);
record types with named or positional fields and variant types are
accepted, every other shape is rejected. -/
def shapeAccepts : Data → Bool
  | Data.struct (Fields.named _) => true
  | Data.struct (Fields.unnamed _) => true
  | Data.struct Fields.unit => false
  | Data.enum _ => true
  | Data.union => false

/-- Modelled from the spec: the Field Scanner on positional fields
(cmp_by.rs / hash_by.rs, absent from src/) — a field with exactly one
marker is included as a selector equal to its positional index, a field
with two or more markers is a hard error at that field, an unmarked field
is skipped. -/
def scanPositional (idx : Nat) : List Nat → Except Nat (List Sel)
  | [] => Except.ok []
  | c :: rest =>
    if c = 0 then scanPositional (idx + 1) rest
    else if 2 ≤ c then Except.error idx
    else (scanPositional (idx + 1) rest).map (fun sels => toString idx :: sels)

/-- Positional fields rendered as named fields whose name and span are the
positional index, for comparison with the named-field scanner. -/
def mkPositional (idx : Nat) : List Nat → List Field
  | [] => []
  | c :: rest => ⟨toString idx, idx, c⟩ :: mkPositional (idx + 1) rest

/-- Forget the message of a field-scan error, keeping the span. -/
def dropMsg : Except (Nat × String) (List Sel) → Except Nat (List Sel)
  | Except.ok sels => Except.ok sels
  | Except.error (sp, _) => Except.error sp

theorem dropMsg_map (f : List Sel → List Sel) (x : Except (Nat × String) (List Sel)) :
    dropMsg (x.map f) = (dropMsg x).map f := by
  cases x with
  | ok sels => rfl
  | error e =>
    obtain ⟨sp, m⟩ := e
    rfl

/-- C8: the shape check accepts records with named fields, records with
positional fields, and variant types, and rejects union shapes; and the
positional scan behaves exactly as the named-field scanner of
src/sort_by.rs does on fields named by their positional index: a marked
positional field participates as the selector equal to its index. -/
theorem shape_check_and_positional_selector (fs : List Field) (cs : List Nat)
    (vs : List (List Field)) (idx : Nat) :
    shapeAccepts (Data.struct (Fields.named fs)) = true ∧
    shapeAccepts (Data.struct (Fields.unnamed cs)) = true ∧
    shapeAccepts (Data.enum vs) = true ∧
    shapeAccepts Data.union = false ∧
    scanPositional idx cs = dropMsg (parse_fields (mkPositional idx cs)) := by
  refine ⟨rfl, rfl, rfl, rfl, ?_⟩
  induction cs generalizing idx with
  | nil => rfl
  | cons c rest ih =>
    rcases c with _ | _ | n
    · show scanPositional idx (0 :: rest) = dropMsg (parse_fields (⟨toString idx, idx, 0⟩ :: mkPositional (idx + 1) rest))
      rw [parse_fields_cons_zero ⟨toString idx, idx, 0⟩ rfl]
      simp only [scanPositional, if_pos rfl]
      exact ih (idx + 1)
    · show scanPositional idx (1 :: rest) = dropMsg (parse_fields (⟨toString idx, idx, 1⟩ :: mkPositional (idx + 1) rest))
      rw [parse_fields_cons_one ⟨toString idx, idx, 1⟩ rfl, dropMsg_map]
      simp only [scanPositional]
      rw [ih (idx + 1)]
      norm_num
    · show scanPositional idx ((n + 2) :: rest) = dropMsg (parse_fields (⟨toString idx, idx, n + 2⟩ :: mkPositional (idx + 1) rest))
      rw [parse_fields_cons_dup ⟨toString idx, idx, n + 2⟩ (by show 2 ≤ n + 2; omega)]
      simp [scanPositional, dropMsg]

/-- A `sort_by` attribute whose parsed list holds one string literal whose
contents fail to re-parse as an expression — the model of a real input such
as a type-level annotation with the string item "not a selector". -/
def badStrAttr : Attr := ⟨"sort_by", 5, some [NestedItem.litStr none], RawTokens.noParse⟩

/-- An input carrying `badStrAttr`. -/
def badStrInput : DeriveInput := ⟨0, [badStrAttr], Data.enum []⟩

/-- C9 counterexample: a string-literal list item whose contents fail to
re-parse is a grammar error, yet the generator panics (the failed `unwrap`
at src/sort_by.rs line 139) instead of returning a compile-error
diagnostic, so not every grammar error surfaces as a diagnostic. -/
theorem grammar_error_panics_counterexample :
    impl_sort_by_derive badStrInput = Res.panicked ∧
    (impl_sort_by_derive badStrInput).isCompileError = false :=
  ⟨rfl, rfl⟩

/-- The selector a tuple-fallback element contributes: the re-parse of a
string literal, or the element itself. -/
def TupleElem.val : TupleElem → Option Sel
  | TupleElem.litStr r => r
  | TupleElem.expr e => some e

theorem fallbackElems_forall2 (elems : List TupleElem) (sels : List Sel)
    (h : List.Forall₂ (fun el s => TupleElem.val el = some s) elems sels) :
    fallback.fallbackElems elems = POut.ok sels := by
  induction h with
  | nil => rfl
  | @cons el s elems2 sels2 hpair hrest ih =>
    cases el with
    | litStr r =>
      cases r with
      | none => exact absurd hpair (by simp [TupleElem.val])
      | some e =>
        have he : e = s := by simpa [TupleElem.val] using hpair
        subst he
        show fallback.fallbackElems (TupleElem.litStr (some e) :: elems2) = POut.ok (e :: sels2)
        simp only [fallback.fallbackElems, ih]
    | expr e =>
      have he : e = s := by simpa [TupleElem.val] using hpair
      subst he
      show fallback.fallbackElems (TupleElem.expr e :: elems2) = POut.ok (e :: sels2)
      simp only [fallback.fallbackElems, ih]

/-- C9 amended: when the primary list form fails to parse — either no
`Meta::List` at all, or a list item that is neither a single-identifier
path nor a string literal — the legacy fallback is tried: a tuple yields
its elements with string literals re-parsed and other elements passed
through, a parenthesized expression yields that expression; when such an
item invalidates the list and the fallback also fails, generation fails
with the help diagnostic at the attachment's span.  However, a
string-literal item whose contents fail to re-parse panics instead of
producing a diagnostic. -/
theorem grammar_error_diagnostic_amended :
    (∀ a : Attr, a.meta = none → parse_outer a = fallback a.tokens) ∧
    (∀ (a : Attr) (items : List NestedItem), a.meta = some items →
      parseList items = POut.err → parse_outer a = fallback a.tokens) ∧
    (∀ (elems : List TupleElem) (sels : List Sel),
      List.Forall₂ (fun el s => TupleElem.val el = some s) elems sels →
      fallback (RawTokens.tuple elems) = POut.ok sels) ∧
    (∀ e : Sel, fallback (RawTokens.paren e) = POut.ok [e]) ∧
    (∀ (sp : Nat) (d : Data) (a : Attr), a.name = "sort_by" →
      parse_outer a = POut.err →
      impl_sort_by_derive ⟨sp, [a], d⟩ = Res.compileError a.span HELP_SORTBY) ∧
    (∀ (rest : List NestedItem) (nm : String) (sp : Nat) (t : RawTokens),
      parse_outer ⟨nm, sp, some (NestedItem.litStr none :: rest), t⟩ = POut.panicked) := by
  refine ⟨?_, ?_, ?_, ?_, ?_, ?_⟩
  · intro a h
    unfold parse_outer
    rw [h]
  · intro a items h hlist
    unfold parse_outer
    rw [h]
    show (match parseList items with
      | POut.ok sels => POut.ok sels
      | POut.panicked => POut.panicked
      | POut.err => fallback a.tokens) = fallback a.tokens
    rw [hlist]
  · intro elems sels h
    exact fallbackElems_forall2 elems sels h
  · intro e
    rfl
  · intro sp d a hname hperr
    have hfil : sortByAttrs ⟨sp, [a], d⟩ = [a] := by
      simp [sortByAttrs, hname]
    unfold impl_sort_by_derive resolveInput
    rw [hfil]
    unfold collectOuter
    rw [hperr]
  · intro rest nm sp t
    rfl

theorem grammar_error_diagnostic_amended_witness :
    impl_sort_by_derive
        ⟨0, [⟨"sort_by", 5, some [NestedItem.otherItem], RawTokens.noParse⟩], Data.enum []⟩
      = Res.compileError 5 HELP_SORTBY :=
  grammar_error_diagnostic_amended.2.2.2.2.1 0 (Data.enum [])
    ⟨"sort_by", 5, some [NestedItem.otherItem], RawTokens.noParse⟩ rfl rfl

end SortByDerive
